import Mathlib

/-!
Verification of the ESG risk-profile pipeline (`esg/utils.py`, `esg/clients.py`,
`esg/services.py`, `esg/history.py`, `esg/keywords.py`).

Modelling conventions, shared by every definition below:
* Python strings are `String` / `List Char`; Python's `str.lower`, `str.strip` and
  the regex `\s` class are modelled over the ASCII range (all inputs exercised by
  the claims are ASCII).
* Python `datetime` objects are `PyDateTime` (an integer instant plus an optional
  UTC-offset; `tz = none` models a naive datetime).  `datetime.utcnow()` returns a
  naive value, modelled as `tz = none`.
* Python floats are `ℚ`; `round(x, 2)` is round-half-to-even, as in Python.
* External collaborators (the OpenAI transport, `json.loads`, the regex that finds
  fenced code blocks, `dateutil.parser.parse`) are passed in as explicit function
  or outcome parameters; a `none`/failure value models the exception the library
  call would raise.
* Presentation-only fields (`display_date`, the human `generated_at` string) are
  outside the embedding; no claim mentions them.
-/

attribute [local semireducible] Rat.mul Rat.add Rat.sub Rat.inv Rat.ofScientific

/-! ### esg/utils.py: whitespace handling and company-name normalisation -/

/-- Whitespace class of the regex `\s` and of `str.strip`, over the ASCII range. -/
def isWS (c : Char) : Bool :=
  c = ' ' || c = '\t' || c = '\n' || c = '\r' || c = '\x0b' || c = '\x0c'

/-- Leading- and trailing-whitespace removal: Python's `str.strip()`. -/
def stripL (l : List Char) : List Char :=
  ((l.dropWhile isWS).reverse.dropWhile isWS).reverse

/-- Replacement of every maximal whitespace run by a single space: the effect of
`re.sub(r"\s+", " ", ·)`.  A run is skipped while two whitespace characters are
adjacent and a single `' '` is emitted at the last character of the run. -/
def collapseWS : List Char → List Char
  | [] => []
  | [c] => if isWS c then [' '] else [c]
  | a :: b :: rest =>
    if isWS a && isWS b then collapseWS (b :: rest)
    else (if isWS a then ' ' else a) :: collapseWS (b :: rest)

/-- `normalize_company_name` from `esg/utils.py`:
`re.sub(r"\s+", " ", name.strip())`. -/
def normalize_company_name (name : String) : String :=
  String.mk (collapseWS (stripL name.toList))

/-- ASCII model of `str.lower` on a single character. -/
def asciiLower (c : Char) : Char :=
  if 'A' ≤ c ∧ c ≤ 'Z' then Char.ofNat (c.toNat + 32) else c

/-- ASCII model of `str.lower`. -/
def asciiLowerStr (s : String) : String :=
  String.mk (s.toList.map asciiLower)

/-! ### SHA-1 (model of `hashlib.sha1(...).hexdigest()`) and `make_cache_key` -/

/-- Truncation to a 32-bit word. -/
def w32 (n : Nat) : Nat := n % 4294967296

/-- 32-bit left rotation. -/
def rotl32 (x n : Nat) : Nat := w32 (x * 2 ^ n + x / 2 ^ (32 - n))

/-- UTF-8 encoding of one character (model of `str.encode('utf-8')`). -/
def utf8Bytes (c : Char) : List Nat :=
  let n := c.toNat
  if n < 128 then [n]
  else if n < 2048 then [192 + n / 64, 128 + n % 64]
  else if n < 65536 then [224 + n / 4096, 128 + n / 64 % 64, 128 + n % 64]
  else [240 + n / 262144, 128 + n / 4096 % 64, 128 + n / 64 % 64, 128 + n % 64]

/-- UTF-8 byte sequence of a string. -/
def strBytes (s : String) : List Nat := (s.toList.map utf8Bytes).flatten

/-- Big-endian 8-byte rendering of the SHA-1 message bit length. -/
def beBytes8 (n : Nat) : List Nat :=
  [n / 2 ^ 56 % 256, n / 2 ^ 48 % 256, n / 2 ^ 40 % 256, n / 2 ^ 32 % 256,
   n / 2 ^ 24 % 256, n / 2 ^ 16 % 256, n / 2 ^ 8 % 256, n % 256]

/-- SHA-1 padding: `0x80`, zeros to 56 mod 64 bytes, then the bit length. -/
def sha1Pad (msg : List Nat) : List Nat :=
  msg ++ [128] ++ List.replicate ((119 - msg.length % 64) % 64) 0
      ++ beBytes8 (8 * msg.length)

/-- Big-endian 32-bit words of a block of bytes. -/
def toWords : List Nat → List Nat
  | b1 :: b2 :: b3 :: b4 :: rest => (((b1 * 256 + b2) * 256 + b3) * 256 + b4) :: toWords rest
  | _ => []

/-- Extension of the 16 block words to the 80-entry message schedule. -/
def extendW (fuel : Nat) (ws : List Nat) : List Nat :=
  match fuel with
  | 0 => ws
  | fuel + 1 =>
    let n := ws.length
    extendW fuel (ws ++ [rotl32 (Nat.xor (Nat.xor (ws.getD (n - 3) 0) (ws.getD (n - 8) 0))
      (Nat.xor (ws.getD (n - 14) 0) (ws.getD (n - 16) 0))) 1])

/-- SHA-1 round function. -/
def sha1F (t b c d : Nat) : Nat :=
  if t < 20 then Nat.lor (Nat.land b c) (Nat.land (Nat.xor b 4294967295) d)
  else if t < 40 then Nat.xor (Nat.xor b c) d
  else if t < 60 then Nat.lor (Nat.lor (Nat.land b c) (Nat.land b d)) (Nat.land c d)
  else Nat.xor (Nat.xor b c) d

/-- SHA-1 round constants. -/
def sha1K (t : Nat) : Nat :=
  if t < 20 then 1518500249
  else if t < 40 then 1859775393
  else if t < 60 then 2400959708
  else 3395469782

/-- The five-word SHA-1 chaining state. -/
structure SHAState where
  h0 : Nat
  h1 : Nat
  h2 : Nat
  h3 : Nat
  h4 : Nat

/-- One SHA-1 block compression. -/
def sha1Compress (st : SHAState) (block : List Nat) : SHAState :=
  let ws := extendW 64 (toWords block)
  let step := fun (s : Nat × Nat × Nat × Nat × Nat) (p : Nat × Nat) =>
    let (a, b, c, d, e) := s
    let (t, w) := p
    (w32 (rotl32 a 5 + sha1F t b c d + e + sha1K t + w), a, rotl32 b 30, c, d)
  let (a, b, c, d, e) := (ws.enum.map (fun p => (p.1, p.2))).foldl step
      (st.h0, st.h1, st.h2, st.h3, st.h4)
  ⟨w32 (st.h0 + a), w32 (st.h1 + b), w32 (st.h2 + c), w32 (st.h3 + d), w32 (st.h4 + e)⟩

/-- Iterated compression over 64-byte blocks. -/
def sha1Blocks (st : SHAState) (bytes : List Nat) : SHAState :=
  if h : bytes = [] then st
  else sha1Blocks (sha1Compress st (bytes.take 64)) (bytes.drop 64)
termination_by bytes.length
decreasing_by
  cases bytes with
  | nil => exact absurd rfl h
  | cons a l =>
    simp only [List.length_drop, List.length_cons]
    omega

/-- Lower-case hex digit. -/
def hexChar (n : Nat) : Char :=
  if n < 10 then Char.ofNat (48 + n) else Char.ofNat (87 + n)

/-- Fixed-width (8 hex) rendering of one 32-bit word. -/
def word2hex (w : Nat) : List Char :=
  [hexChar (w / 16 ^ 7 % 16), hexChar (w / 16 ^ 6 % 16), hexChar (w / 16 ^ 5 % 16),
   hexChar (w / 16 ^ 4 % 16), hexChar (w / 16 ^ 3 % 16), hexChar (w / 16 ^ 2 % 16),
   hexChar (w / 16 % 16), hexChar (w % 16)]

/-- Model of `hashlib.sha1(bytes).hexdigest()`. -/
def sha1Hex (msg : List Nat) : String :=
  let st := sha1Blocks ⟨1732584193, 4023233417, 2562383102, 271733878, 3285377520⟩
      (sha1Pad msg)
  String.mk (word2hex st.h0 ++ word2hex st.h1 ++ word2hex st.h2
    ++ word2hex st.h3 ++ word2hex st.h4)

/-- `make_cache_key` from `esg/utils.py`: the namespace tag followed by the SHA-1
hex digest of the UTF-8 bytes of the lower-cased normalised company name. -/
def make_cache_key (company_name : String) : String :=
  "esg:company:" ++ sha1Hex (strBytes (asciiLowerStr (normalize_company_name company_name)))

/-! ### esg/utils.py: datetimes, deduplication, `take_latest` -/

/-- Model of a Python `datetime`: an integer instant plus an optional UTC offset.
`tz = none` models a naive datetime (no `tzinfo`). -/
structure PyDateTime where
  t : Int
  tz : Option Int
deriving DecidableEq, Repr

/-- `ensure_aware` from `esg/utils.py`: a naive datetime is stamped UTC. -/
def ensure_aware (d : PyDateTime) : PyDateTime :=
  match d.tz with
  | some _ => d
  | none => { d with tz := some 0 }

/-- `safe_parse_datetime` from `esg/utils.py`.  `extParse` models
`dateutil.parser.parse` (with `none` for any exception it raises); a falsy input
(`None` or the empty string) short-circuits to `none`. -/
def safe_parse_datetime (extParse : String → Option PyDateTime) (value : Option String) :
    Option PyDateTime :=
  match value with
  | none => none
  | some s =>
    if s = "" then none
    else
      match extParse s with
      | none => none
      | some d => some (ensure_aware d)

/-- Model of `dt.isoformat()` as used by `utils.isoformat`; the exact rendering is
immaterial to every claim, only that it is a function of the datetime. -/
def datetimeIso (d : PyDateTime) : String :=
  toString d.t ++ "@" ++ (match d.tz with | some o => toString o | none => "")

/-- `isoformat` from `esg/utils.py`. -/
def isoformat (d : PyDateTime) : String := datetimeIso (ensure_aware d)

/-- The article dictionaries that flow through `deduplicate_articles` and
`take_latest` in `esg/clients.py`; `none` models an absent key (or a stored
`None`, which `.get` returns identically). -/
structure PyArticleDict where
  title : Option String := none
  description : Option String := none
  url : Option String := none
  source : Option String := none
  published_at : Option PyDateTime := none
  source_type : Option String := none
deriving DecidableEq, Repr

/-- Python truthiness filter for an optional string: `None` and `""` are falsy. -/
def pyTruthyStr (o : Option String) : Option String :=
  match o with
  | none => none
  | some s => if s = "" then none else some s

/-- The deduplication identity key: the first truthy of (`url`, `title`), as
computed by `next((kc for kc in key_candidates if kc), None)`. -/
def dedupKey (e : PyArticleDict) : Option String :=
  match pyTruthyStr e.url with
  | some u => some u
  | none => pyTruthyStr e.title

/-- The accumulator loop of `deduplicate_articles`: `seen` is the set of keys
already kept; keyless entries are skipped, as are entries whose key was seen. -/
def dedupGo : List PyArticleDict → List String → List PyArticleDict
  | [], _ => []
  | e :: es, seen =>
    match dedupKey e with
    | none => dedupGo es seen
    | some k => if k ∈ seen then dedupGo es seen else e :: dedupGo es (k :: seen)

/-- `deduplicate_articles` from `esg/utils.py`. -/
def deduplicate_articles (entries : List PyArticleDict) : List PyArticleDict :=
  dedupGo entries []

/-- Sort key of `take_latest`: `item.get('published_at') or datetime.min`, with
`none` standing for `datetime.min` (a missing or `None` value).  `datetime.min`
is itself a *naive* datetime. -/
def sortKey (e : PyArticleDict) : Option PyDateTime :=
  e.published_at

/-- Python's `<=` on the `take_latest` sort keys.  Comparing an offset-naive
with an offset-aware datetime raises `TypeError`, modelled by `none`; within a
class the comparison is defined: naive datetimes compare by their wall-clock
instant, aware ones by their UTC-adjusted instant.  `datetime.min` (the key
`none`) is naive and, Python datetimes being bounded, below every other naive
datetime. -/
def pyKeyLe : Option PyDateTime → Option PyDateTime → Option Bool
  | none, none => some true
  | none, some d => (match d.tz with | none => some true | some _ => none)
  | some d, none => (match d.tz with | none => some false | some _ => none)
  | some a, some b =>
    match a.tz, b.tz with
    | none, none => some (decide (a.t ≤ b.t))
    | some oa, some ob => some (decide (a.t - oa ≤ b.t - ob))
    | _, _ => none

/-- Whether two sort keys are comparable (no naive/aware `TypeError`). -/
def keyComparable (x y : Option PyDateTime) : Bool := (pyKeyLe x y).isSome

/-- The comparison value a key contributes within a comparable class: `none`
for `datetime.min`, the wall-clock instant for naive values, the UTC-adjusted
instant for aware values. -/
def cmpVal : Option PyDateTime → Option Int
  | none => none
  | some d => (match d.tz with | none => some d.t | some o => some (d.t - o))

/-- Total order on comparison values: `datetime.min` below everything. -/
def optLe : Option Int → Option Int → Bool
  | none, _ => true
  | some _, none => false
  | some x, some y => decide (x ≤ y)

/-- The descending-by-`published_at` order used by `sorted(..., reverse=True)`:
`a` may come before `b` exactly when `key b ≤ key a`.  This total relation
agrees with the genuine partial comparison `pyKeyLe` on every comparable pair
(`pyKeyLe_comparable` below); `take_latest` only sorts with it when all keys
are mutually comparable, the case in which `sorted()` returns. -/
def byPublishedDesc (a b : PyArticleDict) : Prop :=
  optLe (cmpVal (sortKey b)) (cmpVal (sortKey a)) = true

instance : DecidableRel byPublishedDesc := fun a b =>
  inferInstanceAs (Decidable (_ = true))

instance : IsTotal PyArticleDict byPublishedDesc := by
  constructor
  intro a b
  unfold byPublishedDesc
  generalize cmpVal (sortKey a) = ka
  generalize cmpVal (sortKey b) = kb
  cases ka <;> cases kb <;> simp [optLe] <;> omega

instance : IsTrans PyArticleDict byPublishedDesc := by
  constructor
  intro a b c h1 h2
  unfold byPublishedDesc at *
  revert h1 h2
  generalize cmpVal (sortKey a) = ka
  generalize cmpVal (sortKey b) = kb
  generalize cmpVal (sortKey c) = kc
  cases ka <;> cases kb <;> cases kc <;> simp [optLe] <;> omega

/-- Python list slicing `l[:n]` for an arbitrary (possibly negative) `int` bound. -/
def pySliceTo {α : Type} (l : List α) (n : Int) : List α :=
  if 0 ≤ n then l.take n.toNat else l.take ((l.length : Int) + n).toNat

/-- The `TypeError` raised by comparing offset-naive and offset-aware datetimes. -/
inductive DatetimeCmpError
  | naiveAwareMix
deriving DecidableEq, Repr

instance {ε α : Type} [DecidableEq ε] [DecidableEq α] : DecidableEq (Except ε α) :=
  fun x y =>
    match x, y with
    | .error e1, .error e2 =>
      if h : e1 = e2 then .isTrue (by rw [h]) else .isFalse (fun he => h (Except.error.inj he))
    | .error _, .ok _ => .isFalse (fun he => Except.noConfusion he)
    | .ok _, .error _ => .isFalse (fun he => Except.noConfusion he)
    | .ok a1, .ok a2 =>
      if h : a1 = a2 then .isTrue (by rw [h]) else .isFalse (fun he => h (Except.ok.inj he))

/-- `take_latest` from `esg/utils.py`: a stable descending sort on the
`published_at` key followed by `[:limit]`.  A correct comparison sort must
compare some pair across every nontrivial partition of its input, so when the
keys mix naive and aware datetimes `sorted()` necessarily performs a mixed
comparison and raises `TypeError` (the `.error` branch); when all keys are
mutually comparable every comparison is defined and `sorted(..., reverse=True)`
is the stable descending sort with respect to the key order, i.e.
`List.insertionSort byPublishedDesc`, which agrees with `pyKeyLe` there. -/
def take_latest (entries : List PyArticleDict) (limit : Int) :
    Except DatetimeCmpError (List PyArticleDict) :=
  if entries.all (fun a => entries.all (fun b => keyComparable (sortKey a) (sortKey b))) then
    .ok (pySliceTo (entries.insertionSort byPublishedDesc) limit)
  else .error .naiveAwareMix

/-! ### esg/clients.py: article fetching -/

/-- A raw item of the oracle's `articles` array (all fields optional). -/
structure RawItem where
  title : Option String := none
  description : Option String := none
  url : Option String := none
  source : Option String := none
  published_at : Option String := none
deriving DecidableEq, Repr

/-- The JSON payload `fetch_articles` consumes: `payload.get('articles', [])` is
the `articles` field, with the absent-key default already folded in. -/
structure ArticlesPayload where
  articles : List RawItem := []
deriving DecidableEq, Repr

/-- Python `str.strip()`. -/
def pyStrip (s : String) : String := String.mk (stripL s.toList)

/-- The brace-slice fallback of `_parse_articles_payload`: the substring from the
first `'\x7b'` to the last `'\x7d'`, provided the latter is strictly behind the
former (`start != -1 and end != -1 and end > start`). -/
def bracketSlice (cs : List Char) : Option (List Char) :=
  match cs.findIdx? (fun c => c = '{'), (cs.reverse.findIdx? (fun c => c = '}')) with
  | some s, some rj =>
    let e := cs.length - 1 - rj
    if s < e then some ((cs.drop s).take (e + 1 - s)) else none
  | _, _ => none

/-- `_parse_articles_payload` from `esg/clients.py`.  `jloads` models
`json.loads` restricted to the object payloads the caller consumes (`none`
models `json.JSONDecodeError`); `fenced` models the regex that collects fenced
code blocks.  The strategies run in order: whole text, each fenced block, the
brace slice; `none` models the final raised `JSONDecodeError` (or the one the
brace-slice `json.loads` raises), which the caller catches. -/
def parse_articles_payload (jloads : String → Option ArticlesPayload)
    (fenced : String → List String) (raw_text : String) : Option ArticlesPayload :=
  let text := pyStrip raw_text
  match jloads text with
  | some p => some p
  | none =>
    match (fenced text).findSome? jloads with
    | some p => some p
    | none =>
      match bracketSlice text.toList with
      | some cand => jloads (String.mk cand)
      | none => none

/-- The outcome of the OpenAI web-search transport in `fetch_articles`:
the request may raise, the response may lack `output_text`, or it yields text. -/
inductive OracleResponse
  | transportError
  | missingOutputText
  | text (s : String)

/-- `fetch_articles` from `esg/clients.py`.  `configured` models
`OpenAI and settings.OPENAI_API_KEY`; `resp` the transport outcome; `extParse`
the `dateutil` parser; `now` the instant `datetime.utcnow()` returns (a naive
datetime).  The prompt construction does not influence the result and is not
modelled.  The trailing `take_latest` call sits outside every `try` block, so a
`TypeError` it raises on mixed naive/aware `published_at` values propagates to
the caller: the result is `Except`-valued, and all the soft-failure returns are
`.ok []`. -/
def fetch_articles (configured : Bool) (resp : OracleResponse)
    (jloads : String → Option ArticlesPayload) (fenced : String → List String)
    (extParse : String → Option PyDateTime) (now : Int)
    (limit : Int) : Except DatetimeCmpError (List PyArticleDict) :=
  if !configured then .ok []
  else
    match resp with
    | .transportError => .ok []
    | .missingOutputText => .ok []
    | .text s =>
      match parse_articles_payload jloads fenced s with
      | none => .ok []
      | some payload =>
        let articles := payload.articles.map (fun item =>
          { title := some (item.title.getD "")
            description := some (item.description.getD "")
            url := item.url
            source := item.source
            published_at := some ((safe_parse_datetime extParse item.published_at).getD
              ⟨now, none⟩)
            source_type := some "openai_web_search" : PyArticleDict })
        take_latest (deduplicate_articles articles) limit

/-! ### esg/keywords.py -/

def ENVIRONMENTAL_KEYWORDS : List String :=
  ["emission", "emissions", "carbon", "pollution", "climate", "waste",
   "deforestation", "environment", "biodiversity", "renewable", "sustainability",
   "water scarcity", "pipeline leak", "oil spill", "toxic", "greenhouse",
   "air quality"]

def SOCIAL_KEYWORDS : List String :=
  ["labour", "labor", "worker", "strike", "union", "discrimination", "harassment",
   "human rights", "privacy", "safety", "fatality", "community", "protest",
   "diversity", "inclusive"]

def GOVERNANCE_KEYWORDS : List String :=
  ["governance", "board", "fraud", "bribery", "audit", "corruption",
   "whistleblower", "accounting", "transparency", "sebi", "sec", "compliance",
   "tax evasion", "money laundering", "insider trading"]

/-- `ESG_KEYWORDS`, in the dict's insertion order (the sets themselves are only
tested for membership, so a list model is faithful). -/
def ESG_KEYWORDS : List (String × List String) :=
  [("environment", ENVIRONMENTAL_KEYWORDS), ("social", SOCIAL_KEYWORDS),
   ("governance", GOVERNANCE_KEYWORDS)]

/-! ### Substring containment (Python's `needle in haystack` on strings) -/

/-- Whether `pat` occurs at the head of `l`. -/
def leadsWith : List Char → List Char → Bool
  | [], _ => true
  | _ :: _, [] => false
  | a :: as, b :: bs => a = b && leadsWith as bs

/-- Whether `needle` occurs as a contiguous run inside `hay`. -/
def hasSub (needle : List Char) : List Char → Bool
  | [] => needle.isEmpty
  | c :: t => leadsWith needle (c :: t) || hasSub needle t

/-- Python's `needle in hay` for strings. -/
def pyInStr (needle hay : String) : Bool := hasSub needle.toList hay.toList

/-- `detect_esg_aspects` from `esg/utils.py`: the aspects, in map order, whose
keyword set has a substring hit in the lower-cased text. -/
def detect_esg_aspects (text : String) (keyword_map : List (String × List String)) :
    List String :=
  let lowered := asciiLowerStr text
  (keyword_map.filter (fun p => p.2.any (fun kw => pyInStr kw lowered))).map (fun p => p.1)

/-! ### esg/services.py: score coercion and aggregation -/

/-- The value found under a score key: `num q` is anything `float()` accepts
(numbers, numeric strings, booleans); `bad` is a missing key, `None`, or a value
on which `float()` raises `TypeError`/`ValueError`. -/
inductive ScoreInput
  | num (q : ℚ)
  | bad
deriving DecidableEq, Repr

/-- `ESGService._coerce_score`: coerce then clamp to [0, 100], or the default. -/
def coerce_score (v : ScoreInput) (default : ℚ := 0) : ℚ :=
  match v with
  | .num q => max 0 (min 100 q)
  | .bad => default

/-- Floor of a rational, written out so that it evaluates by kernel reduction. -/
def ratFloor (q : ℚ) : Int := Int.ediv q.num q.den

/-- Round half to even to an integer, as Python's `round` does. -/
def roundHalfEven (q : ℚ) : Int :=
  let f := ratFloor q
  let r := q - f
  if r < 1 / 2 then f
  else if 1 / 2 < r then f + 1
  else if f % 2 = 0 then f else f + 1

/-- Python's `round(x, 2)`. -/
def pyRound2 (q : ℚ) : ℚ := (roundHalfEven (q * 100) : ℚ) / 100

/-- The fixed axis weights of `esg/services.py`. -/
def WEIGHT_ENVIRONMENT : ℚ := 4
def WEIGHT_SOCIAL : ℚ := 3
def WEIGHT_GOVERNANCE : ℚ := 3

/-- `ESGService._calculate_weighted_score`: the weighted mean of the three
coerced axis scores, rounded to two decimals (with the degenerate zero-weight
guard of the source). -/
def calculate_weighted_score (env soc gov : ScoreInput) : ℚ :=
  let total_weight := WEIGHT_ENVIRONMENT + WEIGHT_SOCIAL + WEIGHT_GOVERNANCE
  let weighted_sum := WEIGHT_ENVIRONMENT * coerce_score env
    + WEIGHT_SOCIAL * coerce_score soc + WEIGHT_GOVERNANCE * coerce_score gov
  if total_weight = 0 then 0 else pyRound2 (weighted_sum / total_weight)

/-- The `scores` object of a raw oracle item. -/
structure RawScores where
  environment : ScoreInput := .bad
  social : ScoreInput := .bad
  governance : ScoreInput := .bad
  overall : ScoreInput := .bad
deriving DecidableEq, Repr

/-- A raw item of the scoring oracle's `items` array. -/
structure RawAnalysisItem where
  title : Option String := none
  description : Option String := none
  date : Option String := none
  source : Option String := none
  url : Option String := none
  published_at : Option String := none
  scores : RawScores := {}
deriving DecidableEq, Repr

/-- A normalised score set; all four fields are numeric after normalisation. -/
structure Scores where
  environment : ℚ
  social : ℚ
  governance : ℚ
  overall : ℚ
deriving DecidableEq, Repr

/-- An analysed item as assembled by the scoring engine (the presentation-only
`display_date` field is outside the embedding). -/
structure AnalysedItem where
  title : Option String := none
  description : Option String := none
  date : Option String := none
  source : Option String := none
  url : Option String := none
  scores : Scores
deriving DecidableEq, Repr

/-- Python's `a or b` on optional strings (`None` and `""` are falsy). -/
def pyOrStr (a b : Option String) : Option String :=
  match a with
  | none => b
  | some s => if s = "" then b else some s

/-- `ESGService._normalize_item_structure`: coerce and clamp the three axis
scores, default a missing or invalid `overall` to the weighted mean of the
already-normalised axes. -/
def normalize_item_structure (item : RawAnalysisItem) : AnalysedItem :=
  let env := coerce_score item.scores.environment
  let soc := coerce_score item.scores.social
  let gov := coerce_score item.scores.governance
  let ov := coerce_score item.scores.overall
    (calculate_weighted_score (.num env) (.num soc) (.num gov))
  { title := some (item.title.getD "")
    description := some (item.description.getD "")
    date := pyOrStr item.date item.published_at
    source := item.source
    url := item.url
    scores := ⟨env, soc, gov, ov⟩ }

/-- `ESGService._compute_overall_score`: the arithmetic mean of the item
`overall` scores, rounded to two decimals; 0 for no items.  In the model every
normalised `overall` is numeric, so the `isinstance` filter keeps everything. -/
def compute_overall_score (items : List AnalysedItem) : ℚ :=
  if items.isEmpty then 0
  else
    let valid := items.map (fun i => i.scores.overall)
    if valid.isEmpty then 0
    else pyRound2 (valid.sum / valid.length)

/-- The descending-by-`overall` order used by `_sort_items_by_score`. -/
def byOverallDesc (a b : AnalysedItem) : Prop := b.scores.overall ≤ a.scores.overall

instance : DecidableRel byOverallDesc := fun a b =>
  inferInstanceAs (Decidable (_ ≤ _))

instance : IsTotal AnalysedItem byOverallDesc := ⟨fun a b => le_total _ _⟩

instance : IsTrans AnalysedItem byOverallDesc := ⟨fun _ _ _ h1 h2 => le_trans h2 h1⟩

/-- `ESGService._sort_items_by_score`: stable descending sort on `overall`. -/
def sort_items_by_score (items : List AnalysedItem) : List AnalysedItem :=
  items.insertionSort byOverallDesc

/-- The result of `_analyse_articles` and its two branches. -/
structure AnalysisResult where
  items : List AnalysedItem
  overall_score : ℚ
deriving DecidableEq, Repr

/-! ### esg/services.py: the heuristic fallback path -/

/-- The three mutable axis entries of the heuristic `scores` dict. -/
structure AxisScores where
  environment : ℚ
  social : ℚ
  governance : ℚ
deriving DecidableEq, Repr

/-- `scores[aspect] = base_score` for the aspects `detect_esg_aspects` returns. -/
def setAspect (sc : AxisScores) (aspect : String) : AxisScores :=
  if aspect = "environment" then { sc with environment := 70 }
  else if aspect = "social" then { sc with social := 70 }
  else if aspect = "governance" then { sc with governance := 70 }
  else sc

/-- `' '.join(filter(None, parts))`. -/
def joinSpace (parts : List String) : String :=
  String.intercalate " " (parts.filter (fun s => s ≠ ""))

/-- The `title`/`description` concatenation the heuristic path scores. -/
def heuristicText (article : PyArticleDict) : String :=
  joinSpace [article.title.getD "", article.description.getD ""]

/-- The per-article body of `_analyse_with_heuristics`: keyword detection, flat
base score 70 per detected axis, weighted overall. -/
def heuristic_item (article : PyArticleDict) : AnalysedItem :=
  let aspects := detect_esg_aspects (heuristicText article) ESG_KEYWORDS
  let sc := aspects.foldl setAspect ⟨0, 0, 0⟩
  let overall := calculate_weighted_score (.num sc.environment) (.num sc.social)
    (.num sc.governance)
  { title := article.title
    description := article.description
    date := article.published_at.map isoformat
    source := article.source
    url := article.url
    scores := ⟨sc.environment, sc.social, sc.governance, overall⟩ }

/-- `ESGService._analyse_with_heuristics`. -/
def analyse_with_heuristics (articles : List PyArticleDict) : AnalysisResult :=
  let items := sort_items_by_score (articles.map heuristic_item)
  { items := items, overall_score := compute_overall_score items }

/-! ### esg/services.py: the oracle path and the dispatcher -/

/-- The JSON report the scoring oracle is asked for, with the `.get` defaults of
the source already folded in (`items` defaults to `[]`, `overall_score` to
`None`). -/
structure ScoringPayload where
  items : List RawAnalysisItem := []
  overall_score : Option ℚ := none

/-- The observable outcome of the scoring-oracle exchange inside
`_analyse_with_openai`: the prompt call raised `ESGServiceError`
(misconfiguration, transport failure, or a malformed response object), or it
returned text that `json.loads` rejects, or it returned text parsing to a
payload. -/
inductive ScoringOracle
  | promptFailure
  | parseFailure (raw : String)
  | parsed (p : ScoringPayload)

/-- The service-level error of `esg/exceptions.py`; the only error kind
`_analyse_with_openai` raises. -/
inductive PyError
  | esgServiceError (msg : String)
deriving DecidableEq, Repr

/-- Python's `x or 0` for a numeric value. -/
def pyOrZero (q : ℚ) : ℚ := if q = 0 then 0 else q

/-- `ESGService._analyse_with_openai`.  A `json.loads` failure on the response
text raises `ESGServiceError` (the `.error` branch); a parsed payload is
normalised, sorted, and completed with a computed top-level score when the
oracle supplied none. -/
def analyse_with_openai (oracle : ScoringOracle) : Except PyError AnalysisResult :=
  match oracle with
  | .promptFailure => .error (.esgServiceError "OpenAI request failed")
  | .parseFailure _ => .error (.esgServiceError "Failed to parse OpenAI ESG analysis")
  | .parsed p =>
    let items := sort_items_by_score (p.items.map normalize_item_structure)
    let overall_score :=
      match p.overall_score with
      | some v => v
      | none => compute_overall_score items
    .ok { items := items, overall_score := pyOrZero overall_score }

/-- `ESGService._analyse_articles`: empty input short-circuits; with the oracle
available its result is used unless it raises `ESGServiceError`, which is caught
and answered by the heuristic path; without the oracle the heuristic path runs
directly. -/
def analyse_articles (openai_available : Bool) (oracle : ScoringOracle)
    (articles : List PyArticleDict) : AnalysisResult :=
  if articles.isEmpty then { items := [], overall_score := 0 }
  else if openai_available then
    match analyse_with_openai oracle with
    | .ok r => r
    | .error _ => analyse_with_heuristics articles
  else analyse_with_heuristics articles

/-! ### esg/history.py -/

/-- A row of the `SearchHistory` table. -/
structure SearchHistoryRow where
  user_id : Nat
  company_name : String
  searched_at : Int
deriving DecidableEq, Repr

/-- An entry of the `get_recent_searches` result. -/
structure RecentSearch where
  company_name : String
  searched_at : Int
deriving DecidableEq, Repr

/-- The descending-by-`searched_at` order of `order_by('-searched_at')`. -/
def byRecentDesc (a b : SearchHistoryRow) : Prop := b.searched_at ≤ a.searched_at

instance : DecidableRel byRecentDesc := fun a b =>
  inferInstanceAs (Decidable (_ ≤ _))

instance : IsTotal SearchHistoryRow byRecentDesc := ⟨fun a b => le_total _ _⟩

instance : IsTrans SearchHistoryRow byRecentDesc := ⟨fun _ _ _ h1 h2 => le_trans h2 h1⟩

/-- `SearchHistory.objects.filter(user_id=...).order_by('-searched_at')`. -/
def historyQuerySet (table : List SearchHistoryRow) (uid : Nat) :
    List SearchHistoryRow :=
  (table.filter (fun r => r.user_id = uid)).insertionSort byRecentDesc

/-- The accumulator loop of `get_recent_searches`: skip case-insensitive
duplicates, append, and break once `len(results) >= limit`. -/
def collectRecent (limit : Int) : List SearchHistoryRow → List String →
    List RecentSearch → List RecentSearch
  | [], _, acc => acc.reverse
  | r :: rs, seen, acc =>
    let key := asciiLowerStr r.company_name
    if key ∈ seen then collectRecent limit rs seen acc
    else
      let acc1 : List RecentSearch := ⟨r.company_name, r.searched_at⟩ :: acc
      if limit ≤ (acc1.length : Int) then acc1.reverse
      else collectRecent limit rs (key :: seen) acc1

/-- `SearchHistoryRepository.get_recent_searches`: empty for a falsy user id,
otherwise the dedup-and-truncate loop over the descending query set. -/
def get_recent_searches (table : List SearchHistoryRow) (uid : Nat) (limit : Int) :
    List RecentSearch :=
  if uid = 0 then [] else collectRecent limit (historyQuerySet table uid) [] []

/-- The C4 counterexample scenario: a configured oracle whose payload holds one
raw item without `published_at`, fetched when `datetime.utcnow()` is 12345. -/
def c4Fetched : Except DatetimeCmpError (List PyArticleDict) :=
  fetch_articles true (.text "x") (fun _ => some ⟨[{ url := some "u" }]⟩)
    (fun _ => []) (fun _ => none) 12345 50

/-- The article the C4 scenario produces. -/
def c4Article : PyArticleDict :=
  { title := some "", description := some "", url := some "u",
    published_at := some ⟨12345, none⟩, source_type := some "openai_web_search" }

/-- An article with a naive `published_at` (C6 scenario). -/
def c6Naive : PyArticleDict := { published_at := some ⟨5, none⟩ }

/-- An article with an aware `published_at`, instant 9 (C6 scenario). -/
def c6Aware : PyArticleDict := { published_at := some ⟨9, some 0⟩ }

/-- An article with an aware `published_at`, instant 5 (C6 scenario). -/
def c6Early : PyArticleDict := { published_at := some ⟨5, some 0⟩ }

/-! ## Supporting lemmas -/

example : normalize_company_name "  Adani   Power " = "Adani Power" := by decide

example : asciiLowerStr (normalize_company_name " adani  power") = "adani power" := by decide

theorem optLe_refl (x : Option Int) : optLe x x = true := by
  cases x <;> simp [optLe]

theorem coerce_score_clamp_idem (v : ScoreInput) :
    coerce_score (.num (coerce_score v)) = coerce_score v := by
  cases v with
  | bad => simp [coerce_score]
  | num q =>
    simp only [coerce_score]
    have h1 : max 0 (min 100 q) ≤ 100 := max_le (by norm_num) (min_le_left _ _)
    rw [min_eq_right h1, max_eq_right (le_max_left _ _)]

theorem isEmpty_eq_false_of_ne_nil {α : Type} {l : List α} (h : l ≠ []) :
    l.isEmpty = false := by
  cases l with
  | nil => exact absurd rfl h
  | cons a t => rfl

theorem collectRecent_length (limit : Int) :
    ∀ (rs : List SearchHistoryRow) (seen : List String) (acc : List RecentSearch),
      (acc.length : Int) < limit →
      ((collectRecent limit rs seen acc).length : Int) ≤ limit := by
  intro rs
  induction rs with
  | nil =>
    intro seen acc hacc
    simp only [collectRecent, List.length_reverse]
    omega
  | cons r rs ih =>
    intro seen acc hacc
    simp only [collectRecent]
    split
    · exact ih seen acc hacc
    · split
      · rename_i hl
        simp only [List.length_reverse, List.length_cons] at *
        omega
      · rename_i hl
        refine ih _ _ ?_
        simp only [List.length_cons] at *
        omega

theorem collectRecent_structure (limit : Int) :
    ∀ (rs : List SearchHistoryRow) (seen : List String) (acc : List RecentSearch),
      ∃ sub : List SearchHistoryRow,
        List.Sublist sub rs ∧
        collectRecent limit rs seen acc =
          acc.reverse ++ sub.map (fun r => (⟨r.company_name, r.searched_at⟩ : RecentSearch)) ∧
        (sub.map (fun r => asciiLowerStr r.company_name)).Nodup ∧
        (∀ r ∈ sub, asciiLowerStr r.company_name ∉ seen) := by
  intro rs
  induction rs with
  | nil =>
    intro seen acc
    exact ⟨[], List.Sublist.refl _, by simp [collectRecent], by simp, by simp⟩
  | cons r rs ih =>
    intro seen acc
    by_cases hk : asciiLowerStr r.company_name ∈ seen
    · obtain ⟨sub, h1, h2, h3, h4⟩ := ih seen acc
      exact ⟨sub, List.Sublist.cons r h1, by simpa [collectRecent, hk] using h2, h3, h4⟩
    · by_cases hl : limit ≤
        (((⟨r.company_name, r.searched_at⟩ : RecentSearch) :: acc).length : Int)
      · refine ⟨[r], ?_, ?_, by simp, by simpa using hk⟩
        · exact (List.nil_sublist rs).cons₂ r
        · simp only [collectRecent, if_neg hk, if_pos hl, List.reverse_cons, List.map_cons,
            List.map_nil]
      · obtain ⟨sub, h1, h2, h3, h4⟩ :=
          ih (asciiLowerStr r.company_name :: seen)
            ((⟨r.company_name, r.searched_at⟩ : RecentSearch) :: acc)
        refine ⟨r :: sub, h1.cons₂ r, ?_, ?_, ?_⟩
        · simp only [collectRecent, if_neg hk, if_neg hl, h2, List.reverse_cons,
            List.map_cons, List.append_assoc, List.singleton_append]
        · simp only [List.map_cons, List.nodup_cons]
          refine ⟨?_, h3⟩
          intro hmem
          obtain ⟨r', hr', he⟩ := List.mem_map.mp hmem
          exact (h4 r' hr') (he ▸ List.mem_cons_self _ _)
        · intro r' hr'
          rcases List.mem_cons.mp hr' with rfl | hr'
          · exact hk
          · exact fun hs => (h4 r' hr') (List.mem_cons_of_mem _ hs)

theorem dedupGo_sublist :
    ∀ (l : List PyArticleDict) (seen : List String), List.Sublist (dedupGo l seen) l := by
  intro l
  induction l with
  | nil => intro seen; exact List.nil_sublist []
  | cons a l ih =>
    intro seen
    simp only [dedupGo]
    split
    · exact (ih seen).cons a
    · split
      · exact (ih seen).cons a
      · exact (ih (_ :: seen)).cons₂ a

theorem mem_dedupGo {e : PyArticleDict} :
    ∀ (l : List PyArticleDict) (seen : List String), e ∈ dedupGo l seen →
      ∃ k, dedupKey e = some k ∧ k ∉ seen := by
  intro l
  induction l with
  | nil => intro seen h; simp [dedupGo] at h
  | cons a l ih =>
    intro seen h
    simp only [dedupGo] at h
    split at h
    · exact ih seen h
    · rename_i k ha
      split at h
      · exact ih seen h
      · rename_i hs
        rcases List.mem_cons.mp h with rfl | h
        · exact ⟨k, ha, hs⟩
        · obtain ⟨k', hk', hns⟩ := ih (k :: seen) h
          exact ⟨k', hk', fun hmem => hns (List.mem_cons_of_mem _ hmem)⟩

theorem dedupGo_keys_nodup :
    ∀ (l : List PyArticleDict) (seen : List String),
      ((dedupGo l seen).map dedupKey).Nodup := by
  intro l
  induction l with
  | nil => intro seen; simp [dedupGo]
  | cons a l ih =>
    intro seen
    simp only [dedupGo]
    split
    · exact ih seen
    · rename_i k ha
      split
      · exact ih seen
      · simp only [List.map_cons, List.nodup_cons]
        refine ⟨?_, ih (k :: seen)⟩
        intro hmem
        obtain ⟨e, he, hke⟩ := List.mem_map.mp hmem
        obtain ⟨k', hk', hns⟩ := mem_dedupGo l (k :: seen) he
        rw [hk', ha] at hke
        have : k' = k := by simpa using hke
        exact hns (this ▸ List.mem_cons_self k seen)

theorem dedupGo_find? (k : String) :
    ∀ (l : List PyArticleDict) (seen : List String), k ∉ seen →
      (dedupGo l seen).find? (fun x => decide (dedupKey x = some k)) =
        l.find? (fun x => decide (dedupKey x = some k)) := by
  intro l
  induction l with
  | nil => intro seen _; rfl
  | cons a l ih =>
    intro seen hk
    simp only [dedupGo]
    split
    · rename_i ha
      rw [ih seen hk, List.find?_cons_of_neg]
      simp [ha]
    · rename_i k' ha
      split
      · rename_i hs
        have hne : k' ≠ k := fun he => hk (he ▸ hs)
        rw [ih seen hk, List.find?_cons_of_neg]
        simp [ha, hne]
      · rename_i hs
        by_cases hkk : k' = k
        · subst hkk
          rw [List.find?_cons_of_pos _ (by simp [ha]), List.find?_cons_of_pos _ (by simp [ha])]
        · rw [List.find?_cons_of_neg _ (by simp [ha, hkk]),
            List.find?_cons_of_neg _ (by simp [ha, hkk])]
          refine ih (k' :: seen) ?_
          simp only [List.mem_cons, not_or]
          exact ⟨fun h => hkk h.symm, hk⟩

/-! ## Claim theorems -/

/-- C2.  For every score set whose `overall` value is missing or invalid, the
normalised item's overall score equals `round((4*E + 3*S + 3*G)/10, 2)` where
`E`, `S`, `G` are the coerced, clamped axis scores — the fixed weights 4/3/3
with weight sum 10. -/
theorem normalize_item_overall_weighted (item : RawAnalysisItem)
    (h : item.scores.overall = .bad) :
    (normalize_item_structure item).scores.overall =
      pyRound2 ((4 * coerce_score item.scores.environment
        + 3 * coerce_score item.scores.social
        + 3 * coerce_score item.scores.governance) / 10) := by
  simp only [normalize_item_structure, h, coerce_score, calculate_weighted_score,
    WEIGHT_ENVIRONMENT, WEIGHT_SOCIAL, WEIGHT_GOVERNANCE]
  rw [if_neg (by norm_num)]
  have e1 := coerce_score_clamp_idem item.scores.environment
  have e2 := coerce_score_clamp_idem item.scores.social
  have e3 := coerce_score_clamp_idem item.scores.governance
  simp only [coerce_score] at e1 e2 e3
  rw [e1, e2, e3]
  norm_num

/-- Witness for C2: a concrete item with numeric axes and a missing `overall`. -/
theorem normalize_item_overall_weighted_witness :
    ({ scores := { environment := .num 50, social := .num 30, governance := .num 10 } }
        : RawAnalysisItem).scores.overall = .bad ∧
      (normalize_item_structure
          { scores := { environment := .num 50, social := .num 30, governance := .num 10 } }
        ).scores.overall =
        pyRound2 ((4 * coerce_score (.num 50) + 3 * coerce_score (.num 30)
          + 3 * coerce_score (.num 10)) / 10) :=
  ⟨rfl, normalize_item_overall_weighted
    { scores := { environment := .num 50, social := .num 30, governance := .num 10 } } rfl⟩

theorem mem_pySliceTo {α : Type} {a : α} {l : List α} {n : Int}
    (h : a ∈ pySliceTo l n) : a ∈ l := by
  unfold pySliceTo at h
  split at h <;> exact List.mem_of_mem_take h

theorem pyKeyLe_comparable (x y : Option PyDateTime) (h : keyComparable x y = true) :
    pyKeyLe x y = some (optLe (cmpVal x) (cmpVal y)) := by
  cases x with
  | none =>
    cases y with
    | none => rfl
    | some d =>
      cases hd : d.tz with
      | none => simp [pyKeyLe, cmpVal, optLe, hd]
      | some o =>
        exfalso
        simp [keyComparable, pyKeyLe, hd] at h
  | some d =>
    cases y with
    | none =>
      cases hd : d.tz with
      | none => simp [pyKeyLe, cmpVal, optLe, hd]
      | some o =>
        exfalso
        simp [keyComparable, pyKeyLe, hd] at h
    | some e =>
      cases hd : d.tz <;> cases he : e.tz
      · simp [pyKeyLe, cmpVal, optLe, hd, he]
      · exfalso
        simp [keyComparable, pyKeyLe, hd, he] at h
      · exfalso
        simp [keyComparable, pyKeyLe, hd, he] at h
      · simp [pyKeyLe, cmpVal, optLe, hd, he]

theorem take_latest_ok {entries : List PyArticleDict} {limit : Int}
    {out : List PyArticleDict} (h : take_latest entries limit = .ok out) :
    out = pySliceTo (entries.insertionSort byPublishedDesc) limit ∧
    entries.all (fun a => entries.all (fun b => keyComparable (sortKey a) (sortKey b)))
      = true := by
  unfold take_latest at h
  split at h
  · rename_i hg
    exact ⟨(Except.ok.inj h).symm, hg⟩
  · exact Except.noConfusion h

theorem ensure_aware_isSome (d : PyDateTime) : (ensure_aware d).tz.isSome = true := by
  obtain ⟨t0, tz0⟩ := d
  cases tz0 <;> rfl

theorem safe_parse_datetime_aware (extParse : String → Option PyDateTime)
    (v : Option String) (d : PyDateTime) (h : safe_parse_datetime extParse v = some d) :
    d.tz.isSome = true := by
  unfold safe_parse_datetime at h
  split at h
  · exact Option.noConfusion h
  · split at h
    · exact Option.noConfusion h
    · split at h
      · exact Option.noConfusion h
      · cases Option.some.inj h
        exact ensure_aware_isSome _

/-- C5.  `deduplicate_articles` keeps, per identity key (first truthy of `url`
then `title`), only the first occurrence in input order: the first entry for a
key in the output is the first entry for that key in the input (and keys in the
output are pairwise distinct); two entries with the same non-empty `url` — or
both without a truthy `url` and with the same non-empty `title` — collapse to
the first; an entry with neither `url` nor `title` is dropped. -/
theorem deduplicate_articles_first_occurrence (l : List PyArticleDict)
    (e e1 e2 : PyArticleDict) (u t : String) :
    (e1.url = some u → u ≠ "" → e2.url = some u →
      deduplicate_articles [e1, e2] = [e1]) ∧
    (pyTruthyStr e1.url = none → pyTruthyStr e2.url = none →
      e1.title = some t → t ≠ "" → e2.title = some t →
      deduplicate_articles [e1, e2] = [e1]) ∧
    (dedupKey e = none → e ∉ deduplicate_articles l) ∧
    ((deduplicate_articles l).map dedupKey).Nodup ∧
    (∀ k : String,
      (deduplicate_articles l).find? (fun x => decide (dedupKey x = some k)) =
        l.find? (fun x => decide (dedupKey x = some k))) := by
  refine ⟨?_, ?_, ?_, dedupGo_keys_nodup l [], fun k => dedupGo_find? k l [] (by simp)⟩
  · intro h1 h2 h3
    simp [deduplicate_articles, dedupGo, dedupKey, pyTruthyStr, h1, h2, h3]
  · intro h1 h2 h3 h4 h5
    have ht1 : pyTruthyStr e1.title = some t := by simp [pyTruthyStr, h3, h4]
    have ht2 : pyTruthyStr e2.title = some t := by simp [pyTruthyStr, h5, h4]
    simp [deduplicate_articles, dedupGo, dedupKey, h1, h2, ht1, ht2]
  · intro hk hmem
    obtain ⟨k, hk', -⟩ := mem_dedupGo l [] hmem
    rw [hk] at hk'
    exact Option.noConfusion hk'

/-- Witness for C5: concrete two-element lists for the url case and the title
case, and a keyless entry in a singleton list. -/
theorem deduplicate_articles_first_occurrence_witness :
    (deduplicate_articles [({ url := some "u", title := some "a" } : PyArticleDict),
      { url := some "u", title := some "b" }] = [{ url := some "u", title := some "a" }]) ∧
    (deduplicate_articles [({ title := some "t" } : PyArticleDict),
      { url := some "", title := some "t" }] = [{ title := some "t" }]) ∧
    (({ description := some "d" } : PyArticleDict) ∉
      deduplicate_articles [({ description := some "d" } : PyArticleDict)]) :=
  ⟨(deduplicate_articles_first_occurrence [] ({} : PyArticleDict)
      { url := some "u", title := some "a" } { url := some "u", title := some "b" } "u"
      "").1 rfl (by decide) rfl,
   (deduplicate_articles_first_occurrence [] ({} : PyArticleDict)
      { title := some "t" } { url := some "", title := some "t" } "" "t").2.1
      rfl rfl rfl (by decide) rfl,
   (deduplicate_articles_first_occurrence [({ description := some "d" } : PyArticleDict)]
      { description := some "d" } {} {} "" "").2.2.1 rfl⟩

/-- C4 counterexample.  A raw item with a missing `published_at` gets the
default `datetime.utcnow()`, which is a *naive* datetime (`tz = none`), so the
defaulted instant is not timezone-aware: the produced article's `published_at`
carries no timezone. -/
theorem fetch_articles_naive_default_counterexample :
    c4Fetched = .ok [c4Article] ∧
    c4Article.published_at.map (fun d => d.tz) = some none := by
  exact ⟨by decide, by decide⟩

/-- C4 (amended).  Every article produced by `fetch_articles` has a
`published_at` that is either timezone-aware (whenever the raw value parsed —
`safe_parse_datetime` only returns aware instants) or is exactly the naive
current instant `datetime.utcnow()` of fetch time; the missing/unparsable
default is that naive current instant, not a timezone-aware one. -/
theorem fetch_articles_published_at_amended :
    (∀ (extParse : String → Option PyDateTime) (v : Option String) (d : PyDateTime),
      safe_parse_datetime extParse v = some d → d.tz.isSome = true) ∧
    (∀ (configured : Bool) (resp : OracleResponse)
      (jloads : String → Option ArticlesPayload) (fenced : String → List String)
      (extParse : String → Option PyDateTime) (now : Int) (limit : Int)
      (out : List PyArticleDict),
      fetch_articles configured resp jloads fenced extParse now limit = .ok out →
      ∀ a ∈ out,
        ∃ d, a.published_at = some d ∧
          (d.tz.isSome = true ∨ d = ⟨now, none⟩)) := by
  refine ⟨safe_parse_datetime_aware, ?_⟩
  intro configured resp jloads fenced extParse now limit out hout a ha
  cases configured with
  | false =>
    cases Except.ok.inj hout
    exact absurd ha (List.not_mem_nil a)
  | true =>
    cases resp with
    | transportError =>
      cases Except.ok.inj hout
      exact absurd ha (List.not_mem_nil a)
    | missingOutputText =>
      cases Except.ok.inj hout
      exact absurd ha (List.not_mem_nil a)
    | text s =>
      simp only [fetch_articles] at hout
      cases hp : parse_articles_payload jloads fenced s with
      | none =>
        rw [hp] at hout
        cases Except.ok.inj hout
        exact absurd ha (List.not_mem_nil a)
      | some payload =>
        rw [hp] at hout
        obtain ⟨hshape, -⟩ := take_latest_ok hout
        subst hshape
        have h1 := mem_pySliceTo ha
        have h2 := (List.mem_insertionSort byPublishedDesc).mp h1
        have h3 := List.Sublist.mem h2 (dedupGo_sublist _ [])
        obtain ⟨item, -, rfl⟩ := List.mem_map.mp h3
        cases hd : safe_parse_datetime extParse item.published_at with
        | none => exact ⟨⟨now, none⟩, by simp [hd], Or.inr rfl⟩
        | some d =>
          exact ⟨d, by simp [hd], Or.inl (safe_parse_datetime_aware extParse _ d hd)⟩

/-- Witness for C4 (amended), at the counterexample scenario: the produced
article's instant is the naive `now`. -/
theorem fetch_articles_published_at_amended_witness :
    ∃ d, c4Article.published_at = some d ∧ (d.tz.isSome = true ∨ d = ⟨12345, none⟩) :=
  fetch_articles_published_at_amended.2 true (.text "x")
    (fun _ => some ⟨[{ url := some "u" }]⟩) (fun _ => []) (fun _ => none) 12345 50
    [c4Article] (by decide) c4Article (by decide)

/-- C6 counterexample.  As stated over every `int` limit and every input the
claim fails twice over: with `limit = -1` (Python slice `[:-1]`) a one-element
input yields zero elements and "at most `-1` items" is unsatisfiable; and on an
input mixing a naive and an aware `published_at`, `sorted()` raises `TypeError`
instead of returning a sorted sequence. -/
theorem take_latest_counterexample :
    (take_latest [({ title := some "x" } : PyArticleDict)] (-1) =
        .ok ([] : List PyArticleDict) ∧
      ¬ ((0 : Int) ≤ -1)) ∧
    take_latest [c6Naive, c6Aware] 2 = .error .naiveAwareMix := by
  exact ⟨⟨by decide, by decide⟩, by decide⟩

/-- C6 (amended to non-negative limits and comparable keys).  Whenever
`take_latest` returns (it raises `TypeError` exactly on a naive/aware key mix),
the result holds at most `limit` items, sorted descending under Python's
datetime comparison, and the sort is stable: a pair of entries with equal
`published_at` stays in input order in the sorted list the output is cut from;
and on every input whose keys are mutually comparable it does return. -/
theorem take_latest_spec (entries : List PyArticleDict) (limit : Int) (h : 0 ≤ limit) :
    (∀ out : List PyArticleDict, take_latest entries limit = .ok out →
      ((out.length : Int) ≤ limit ∧
        out.Pairwise (fun a b => pyKeyLe (sortKey b) (sortKey a) = some true) ∧
        ∀ a b : PyArticleDict, List.Sublist [a, b] entries → sortKey a = sortKey b →
          List.Sublist [a, b] (entries.insertionSort byPublishedDesc))) ∧
    ((∀ a ∈ entries, ∀ b ∈ entries, keyComparable (sortKey a) (sortKey b) = true) →
      ∃ out, take_latest entries limit = .ok out) := by
  constructor
  · intro out hout
    obtain ⟨hshape, hguard⟩ := take_latest_ok hout
    have hcomp : ∀ a ∈ entries, ∀ b ∈ entries,
        keyComparable (sortKey a) (sortKey b) = true := by
      intro a ha b hb
      exact List.all_eq_true.mp (List.all_eq_true.mp hguard a ha) b hb
    have hs : pySliceTo (entries.insertionSort byPublishedDesc) limit =
        (entries.insertionSort byPublishedDesc).take limit.toNat := by
      simp [pySliceTo, h]
    have hmem : ∀ x ∈ out, x ∈ entries := by
      intro x hx
      rw [hshape] at hx
      exact (List.mem_insertionSort byPublishedDesc).mp (mem_pySliceTo hx)
    refine ⟨?_, ?_, ?_⟩
    · rw [hshape, hs]
      have h1 : ((entries.insertionSort byPublishedDesc).take limit.toNat).length
          ≤ limit.toNat := by
        simp [List.length_take]
      omega
    · have hp : out.Pairwise byPublishedDesc := by
        rw [hshape, hs]
        exact List.Pairwise.sublist (List.take_sublist _ _)
          (List.sorted_insertionSort byPublishedDesc entries)
      refine List.Pairwise.imp_of_mem ?_ hp
      intro a b ha hb hd
      rw [pyKeyLe_comparable _ _ (hcomp b (hmem b hb) a (hmem a ha)), hd]
    · intro a b hab hkey
      refine List.pair_sublist_insertionSort ?_ hab
      show optLe (cmpVal (sortKey b)) (cmpVal (sortKey a)) = true
      rw [hkey]
      exact optLe_refl _
  · intro hcomp
    refine ⟨pySliceTo (entries.insertionSort byPublishedDesc) limit, ?_⟩
    unfold take_latest
    rw [if_pos]
    exact List.all_eq_true.mpr
      (fun a ha => List.all_eq_true.mpr (fun b hb => hcomp a ha b hb))

/-- Witness for C6: a two-element, uniformly aware list with distinct keys and
limit 2. -/
theorem take_latest_spec_witness :
    (0 : Int) ≤ 2 ∧
    (((([c6Aware, c6Early] : List PyArticleDict).length : Int) ≤ 2 ∧
      ([c6Aware, c6Early] : List PyArticleDict).Pairwise
        (fun a b => pyKeyLe (sortKey b) (sortKey a) = some true) ∧
      ∀ a b : PyArticleDict, List.Sublist [a, b] [c6Early, c6Aware] →
        sortKey a = sortKey b →
        List.Sublist [a, b] (List.insertionSort byPublishedDesc [c6Early, c6Aware])) ∧
    ∃ out, take_latest [c6Early, c6Aware] 2 = .ok out) := by
  refine ⟨by decide, ?_, ?_⟩
  · exact (take_latest_spec [c6Early, c6Aware] 2 (by decide)).1
      [c6Aware, c6Early] (by decide)
  · exact (take_latest_spec [c6Early, c6Aware] 2 (by decide)).2 (by decide)

/-- C9 counterexample.  With `limit = 0` (a non-negative limit) and a single
history row, `get_recent_searches` returns one entry, because the loop appends
before checking `len(results) >= limit` — so "at most `limit` entries for every
non-negative limit" is false. -/
theorem get_recent_searches_zero_limit_counterexample :
    ¬ ((get_recent_searches [⟨1, "Acme", 5⟩] 1 0).length ≤ 0) := by decide

/-- C9 (amended to positive limits).  `get_recent_searches` returns at most
`limit` entries for every positive limit, case-insensitively deduplicated by
company name (no two entries whose names agree after lower-casing), ordered
most-recent first by `searched_at`. -/
theorem get_recent_searches_spec (table : List SearchHistoryRow) (uid : Nat)
    (limit : Int) (h : 1 ≤ limit) :
    ((get_recent_searches table uid limit).length : Int) ≤ limit ∧
    (get_recent_searches table uid limit).Pairwise
      (fun a b => asciiLowerStr a.company_name ≠ asciiLowerStr b.company_name) ∧
    (get_recent_searches table uid limit).Pairwise
      (fun a b => b.searched_at ≤ a.searched_at) := by
  by_cases hu : uid = 0
  · simp only [get_recent_searches, if_pos hu]
    exact ⟨by simp; omega, by simp, by simp⟩
  · simp only [get_recent_searches, if_neg hu]
    obtain ⟨sub, hsub, heq, hnd, -⟩ :=
      collectRecent_structure limit (historyQuerySet table uid) [] []
    have hqs : (historyQuerySet table uid).Pairwise byRecentDesc :=
      List.sorted_insertionSort byRecentDesc _
    have hsubp : sub.Pairwise byRecentDesc := List.Pairwise.sublist hsub hqs
    rw [heq]
    simp only [List.reverse_nil, List.nil_append]
    refine ⟨?_, ?_, ?_⟩
    · have := collectRecent_length limit (historyQuerySet table uid) [] []
        (by simpa using by omega)
      rw [heq] at this
      simpa using this
    · rw [List.pairwise_map]
      have : sub.Pairwise
          (fun a b => asciiLowerStr a.company_name ≠ asciiLowerStr b.company_name) :=
        List.pairwise_map.mp hnd
      exact this.imp (fun hab => hab)
    · rw [List.pairwise_map]
      exact hsubp.imp (fun hab => hab)

/-- Witness for C9: two rows differing only in case, limit 10. -/
theorem get_recent_searches_spec_witness :
    (1 : Int) ≤ 10 ∧
    (((get_recent_searches [⟨1, "Acme", 5⟩, ⟨1, "ACME", 9⟩] 1 10).length : Int) ≤ 10 ∧
      (get_recent_searches [⟨1, "Acme", 5⟩, ⟨1, "ACME", 9⟩] 1 10).Pairwise
        (fun a b => asciiLowerStr a.company_name ≠ asciiLowerStr b.company_name) ∧
      (get_recent_searches [⟨1, "Acme", 5⟩, ⟨1, "ACME", 9⟩] 1 10).Pairwise
        (fun a b => b.searched_at ≤ a.searched_at)) :=
  ⟨by decide, get_recent_searches_spec [⟨1, "Acme", 5⟩, ⟨1, "ACME", 9⟩] 1 10 (by decide)⟩

/-- C3.  `fetch_articles` degrades to an empty list on each of its failure
conditions: unconfigured oracle credentials, a transport-level failure, and a
response text on which all three JSON-extraction strategies (whole text, every
fenced block, the brace slice) fail. -/
theorem fetch_articles_soft_failures
    (jloads : String → Option ArticlesPayload) (fenced : String → List String)
    (extParse : String → Option PyDateTime) (now : Int) (limit : Int)
    (configured : Bool) (s : String) :
    (∀ resp, fetch_articles false resp jloads fenced extParse now limit = .ok []) ∧
    (fetch_articles configured .transportError jloads fenced extParse now limit = .ok []) ∧
    (jloads (pyStrip s) = none →
      (∀ b ∈ fenced (pyStrip s), jloads b = none) →
      (∀ cand, bracketSlice (pyStrip s).toList = some cand →
        jloads (String.mk cand) = none) →
      parse_articles_payload jloads fenced s = none ∧
      fetch_articles configured (.text s) jloads fenced extParse now limit = .ok []) := by
  refine ⟨fun resp => rfl, ?_, ?_⟩
  · cases configured <;> rfl
  · intro h1 h2 h3
    have hfs : (fenced (pyStrip s)).findSome? jloads = none :=
      List.findSome?_eq_none_iff.mpr h2
    have hp : parse_articles_payload jloads fenced s = none := by
      simp only [parse_articles_payload, h1, hfs]
      cases hb : bracketSlice (pyStrip s).toList with
      | none => rfl
      | some cand => exact h3 cand hb
    refine ⟨hp, ?_⟩
    cases configured with
    | false => rfl
    | true => simp [fetch_articles, hp]

/-- Witness for C3: a rejecting `json.loads`, no fenced blocks, a text without
braces, on a configured oracle. -/
theorem fetch_articles_soft_failures_witness :
    ((fun _ => none : String → Option ArticlesPayload) (pyStrip "no json here") = none) ∧
    (parse_articles_payload (fun _ => none) (fun _ => []) "no json here" = none ∧
      fetch_articles true (.text "no json here") (fun _ => none) (fun _ => [])
        (fun _ => none) 0 50 = .ok []) :=
  ⟨rfl, (fetch_articles_soft_failures (fun _ => none) (fun _ => [])
    (fun _ => none) 0 50 true "no json here").2.2 rfl
    (by intro b hb; exact absurd hb (List.not_mem_nil b))
    (by intro cand hc; exact (by simpa using hc))⟩

/-- C1.  A `json.loads` failure on the scoring oracle's response makes
`_analyse_with_openai` raise `ESGServiceError`; `_analyse_articles` catches that
error and answers with the heuristic path, so for every non-empty article list
the analysis result is exactly the oracle result or exactly the heuristic
result — never partial oracle data. -/
theorem analyse_articles_parse_failure_fallback (openai_available : Bool)
    (oracle : ScoringOracle) (articles : List PyArticleDict) (h : articles ≠ []) :
    (∀ raw, ∃ msg, analyse_with_openai (.parseFailure raw) = .error (.esgServiceError msg)) ∧
    (∀ raw, oracle = .parseFailure raw →
      analyse_articles true oracle articles = analyse_with_heuristics articles) ∧
    ((∃ r, analyse_with_openai oracle = .ok r ∧
        analyse_articles openai_available oracle articles = r) ∨
      analyse_articles openai_available oracle articles = analyse_with_heuristics articles) := by
  have hne : articles.isEmpty = false := isEmpty_eq_false_of_ne_nil h
  refine ⟨fun raw => ⟨_, rfl⟩, ?_, ?_⟩
  · rintro raw rfl
    simp [analyse_articles, hne, analyse_with_openai]
  · cases openai_available with
    | false => exact Or.inr (by simp [analyse_articles, hne])
    | true =>
      cases oracle with
      | promptFailure => exact Or.inr (by simp [analyse_articles, hne, analyse_with_openai])
      | parseFailure raw => exact Or.inr (by simp [analyse_articles, hne, analyse_with_openai])
      | parsed p =>
        exact Or.inl ⟨_, rfl, by simp [analyse_articles, hne, analyse_with_openai]⟩

/-- Witness for C1: the parse-failure oracle on a one-article list. -/
theorem analyse_articles_parse_failure_fallback_witness :
    ([({ title := some "t" } : PyArticleDict)] ≠ []) ∧
    (analyse_articles true (.parseFailure "not json") [{ title := some "t" }] =
      analyse_with_heuristics [{ title := some "t" }]) :=
  ⟨by simp, ((analyse_articles_parse_failure_fallback true (.parseFailure "not json")
    [{ title := some "t" }] (by simp)).2.1 "not json" rfl)⟩

theorem collapseWS_head (l : List Char) :
    (collapseWS l).head? = l.head?.map (fun c => if isWS c then ' ' else c) := by
  induction l using collapseWS.induct with
  | case1 => rfl
  | case2 c h => simp [collapseWS, h]
  | case3 c h => simp [collapseWS, h]
  | case4 a b rest h ih =>
    simp only [collapseWS, h, if_pos]
    rw [ih]
    simp only [Bool.and_eq_true] at h
    simp [h.1, h.2]
  | case5 a b rest h ih => simp [collapseWS, h]

theorem collapseWS_getLast (l : List Char) :
    (collapseWS l).getLast? = l.getLast?.map (fun c => if isWS c then ' ' else c) := by
  induction l using collapseWS.induct with
  | case1 => rfl
  | case2 c h => simp [collapseWS, h]
  | case3 c h => simp [collapseWS, h]
  | case4 a b rest h ih =>
    simp only [collapseWS, h, if_pos]
    rw [ih, List.getLast?_cons_cons]
  | case5 a b rest h ih =>
    simp only [collapseWS]
    rw [if_neg h]
    have hne : collapseWS (b :: rest) ≠ [] := by
      intro he
      have hh := collapseWS_head (b :: rest)
      rw [he] at hh
      simp at hh
    cases hE : collapseWS (b :: rest) with
    | nil => exact absurd hE hne
    | cons x xs =>
      conv_lhs => rw [List.getLast?_cons_cons]
      rw [← hE, ih, List.getLast?_cons_cons]

theorem collapseWS_ws_space (l : List Char) :
    ∀ c ∈ collapseWS l, isWS c = true → c = ' ' := by
  induction l using collapseWS.induct with
  | case1 => intro c hc; simp [collapseWS] at hc
  | case2 c0 h => intro c hc _; simpa [collapseWS, h] using hc
  | case3 c0 h =>
    intro c hc hws
    simp [collapseWS, h] at hc
    subst hc
    exact absurd hws h
  | case4 a b rest h ih =>
    intro c hc hws
    simp only [collapseWS, h, if_pos] at hc
    exact ih c hc hws
  | case5 a b rest h ih =>
    intro c hc hws
    simp only [collapseWS] at hc
    rw [if_neg h] at hc
    rcases List.mem_cons.mp hc with rfl | hc
    · by_cases ha : isWS a
      · simp [ha]
      · rw [if_neg ha] at hws ⊢
        exact absurd hws ha
    · exact ih c hc hws

theorem collapseWS_chain (l : List Char) :
    List.Chain' (fun x y => ¬(isWS x = true ∧ isWS y = true)) (collapseWS l) := by
  induction l using collapseWS.induct with
  | case1 => simp [collapseWS]
  | case2 c h => simp [collapseWS, h]
  | case3 c h => simp [collapseWS, h]
  | case4 a b rest h ih => simpa only [collapseWS, h, if_pos] using ih
  | case5 a b rest h ih =>
    simp only [collapseWS]
    rw [if_neg h]
    rw [List.chain'_cons']
    refine ⟨?_, ih⟩
    intro y hy
    rw [collapseWS_head (b :: rest)] at hy
    simp only [List.head?_cons, Option.map_some'] at hy
    have hy' : y = if isWS b then ' ' else b := by simpa using hy.symm
    subst hy'
    rintro ⟨hx, hyw⟩
    by_cases ha : isWS a
    · have hb : ¬ isWS b = true := fun hb => by simp [ha, hb] at h
      rw [if_neg hb] at hyw
      exact hb hyw
    · rw [if_neg ha] at hx
      exact ha hx

theorem collapseWS_fix (l : List Char)
    (hch : List.Chain' (fun x y => ¬(isWS x = true ∧ isWS y = true)) l)
    (hsp : ∀ c ∈ l, isWS c = true → c = ' ') :
    collapseWS l = l := by
  induction l using collapseWS.induct with
  | case1 => rfl
  | case2 c h =>
    simp only [collapseWS, h, if_pos]
    rw [hsp c (by simp) h]
  | case3 c h => simp [collapseWS, h]
  | case4 a b rest h ih =>
    exfalso
    rw [List.chain'_cons'] at hch
    have hab := hch.1 b (by simp)
    simp only [Bool.and_eq_true] at h
    exact hab ⟨h.1, h.2⟩
  | case5 a b rest h ih =>
    simp only [collapseWS]
    rw [if_neg h]
    have h1 : (if isWS a then ' ' else a) = a := by
      by_cases ha : isWS a
      · rw [if_pos ha, hsp a (by simp) ha]
      · rw [if_neg ha]
    rw [h1, ih (List.chain'_cons'.mp hch).2
      (fun c hc hw => hsp c (List.mem_cons_of_mem _ hc) hw)]

theorem head?_dropWhile_not_ws (l : List Char) :
    ∀ c, (l.dropWhile isWS).head? = some c → isWS c = false := by
  induction l with
  | nil => intro c h; exact Option.noConfusion h
  | cons a t ih =>
    intro c h
    by_cases ha : isWS a
    · rw [List.dropWhile_cons_of_pos ha] at h
      exact ih c h
    · rw [List.dropWhile_cons_of_neg ha] at h
      cases Option.some.inj h
      simpa using ha

theorem stripL_head (l : List Char) :
    ∀ c, (stripL l).head? = some c → isWS c = false := by
  intro c h
  unfold stripL at h
  rw [List.head?_reverse] at h
  have hsuf : List.IsSuffix ((l.dropWhile isWS).reverse.dropWhile isWS)
      ((l.dropWhile isWS).reverse) := List.dropWhile_suffix isWS
  obtain ⟨t, ht⟩ := hsuf
  have hlast : ((l.dropWhile isWS).reverse).getLast? = some c := by
    rw [← ht, List.getLast?_append, h]
    rfl
  rw [List.getLast?_reverse] at hlast
  exact head?_dropWhile_not_ws l c hlast

theorem stripL_getLast (l : List Char) :
    ∀ c, (stripL l).getLast? = some c → isWS c = false := by
  intro c h
  unfold stripL at h
  rw [List.getLast?_reverse] at h
  exact head?_dropWhile_not_ws _ c h

theorem dropWhile_eq_self_of_head (l : List Char)
    (h : ∀ c, l.head? = some c → isWS c = false) : l.dropWhile isWS = l := by
  cases l with
  | nil => rfl
  | cons a t =>
    rw [List.dropWhile_cons_of_neg]
    simp [h a rfl]

theorem stripL_eq_self (l : List Char)
    (hh : ∀ c, l.head? = some c → isWS c = false)
    (hl : ∀ c, l.getLast? = some c → isWS c = false) : stripL l = l := by
  unfold stripL
  rw [dropWhile_eq_self_of_head l hh]
  rw [dropWhile_eq_self_of_head l.reverse
    (fun c hc => hl c (by rwa [List.head?_reverse] at hc))]
  exact List.reverse_reverse l

theorem normalize_head_not_ws (s : String) :
    ∀ c, (normalize_company_name s).toList.head? = some c → isWS c = false := by
  intro c h
  have h' : (collapseWS (stripL s.toList)).head? = some c := h
  rw [collapseWS_head] at h'
  cases hX : (stripL s.toList).head? with
  | none => rw [hX] at h'; exact Option.noConfusion h'
  | some c0 =>
    rw [hX] at h'
    have hws := stripL_head s.toList c0 hX
    have he : (if isWS c0 then ' ' else c0) = c := by simpa using h'
    rw [if_neg (by simp [hws])] at he
    rw [← he]
    exact hws

theorem normalize_getLast_not_ws (s : String) :
    ∀ c, (normalize_company_name s).toList.getLast? = some c → isWS c = false := by
  intro c h
  have h' : (collapseWS (stripL s.toList)).getLast? = some c := h
  rw [collapseWS_getLast] at h'
  cases hX : (stripL s.toList).getLast? with
  | none => rw [hX] at h'; exact Option.noConfusion h'
  | some c0 =>
    rw [hX] at h'
    have hws := stripL_getLast s.toList c0 hX
    have he : (if isWS c0 then ' ' else c0) = c := by simpa using h'
    rw [if_neg (by simp [hws])] at he
    rw [← he]
    exact hws

/-- C10.  `normalize_company_name` is idempotent, its output never starts or
ends with a whitespace character, and the output never has two adjacent
whitespace characters. -/
theorem normalize_company_name_spec (s : String) :
    normalize_company_name (normalize_company_name s) = normalize_company_name s ∧
    (∀ c, (normalize_company_name s).toList.head? = some c → isWS c = false) ∧
    (∀ c, (normalize_company_name s).toList.getLast? = some c → isWS c = false) ∧
    List.Chain' (fun x y => ¬(isWS x = true ∧ isWS y = true))
      (normalize_company_name s).toList := by
  refine ⟨?_, normalize_head_not_ws s, normalize_getLast_not_ws s, ?_⟩
  · have hL : (normalize_company_name s).toList = collapseWS (stripL s.toList) := rfl
    show String.mk (collapseWS (stripL (normalize_company_name s).toList)) = _
    rw [hL, stripL_eq_self _ (fun c hc => normalize_head_not_ws s c (hL ▸ hc))
      (fun c hc => normalize_getLast_not_ws s c (hL ▸ hc))]
    rw [collapseWS_fix _ (collapseWS_chain _) (collapseWS_ws_space _)]
    rfl
  · exact collapseWS_chain _

/-- Witness for C10 at a concrete name with inner and outer whitespace. -/
theorem normalize_company_name_spec_witness :
    normalize_company_name (normalize_company_name " A  b ") =
      normalize_company_name " A  b " ∧
    ((normalize_company_name " A  b ").toList.head? = some 'A' ∧ isWS 'A' = false) ∧
    ((normalize_company_name " A  b ").toList.getLast? = some 'b' ∧ isWS 'b' = false) :=
  ⟨(normalize_company_name_spec " A  b ").1,
   ⟨by decide, (normalize_company_name_spec " A  b ").2.1 'A' (by decide)⟩,
   ⟨by decide, (normalize_company_name_spec " A  b ").2.2.1 'b' (by decide)⟩⟩

/-- C7.  `make_cache_key` is deterministic and invariant under case changes and
extra whitespace of the company name (any two names agreeing after
normalisation and lower-casing get the same key; in particular
`"Adani Power"` and `" adani  power"` do); for every name the key is the
namespace tag `"esg:company:"` followed by the SHA-1 hex digest — always 40 hex
characters — of the lower-cased normalised name. -/
theorem make_cache_key_spec :
    (∀ s t : String,
      asciiLowerStr (normalize_company_name s) = asciiLowerStr (normalize_company_name t) →
      make_cache_key s = make_cache_key t) ∧
    make_cache_key "Adani Power" = make_cache_key " adani  power" ∧
    (∀ name : String, make_cache_key name =
      "esg:company:" ++ sha1Hex (strBytes (asciiLowerStr (normalize_company_name name)))) ∧
    (∀ msg : List Nat, (sha1Hex msg).length = 40) := by
  have hgen : ∀ s t : String,
      asciiLowerStr (normalize_company_name s) = asciiLowerStr (normalize_company_name t) →
      make_cache_key s = make_cache_key t := by
    intro s t h
    unfold make_cache_key
    rw [h]
  refine ⟨hgen, hgen _ _ (by decide), fun name => rfl, ?_⟩
  intro msg
  simp [sha1Hex, word2hex, String.length]

/-- Witness for C7: the two concrete spellings agree after normalisation. -/
theorem make_cache_key_spec_witness :
    asciiLowerStr (normalize_company_name "Adani Power") =
      asciiLowerStr (normalize_company_name " adani  power") ∧
    make_cache_key "Adani Power" = make_cache_key " adani  power" :=
  ⟨by decide, make_cache_key_spec.1 "Adani Power" " adani  power" (by decide)⟩

/-- C8 counterexample.  The claim quantifies over every article whose text
contains "oil spill"; an article whose text also hits a social keyword
("strike") receives `social = 70`, not 0, and `overall = 49.0`, not 28.0. -/
theorem heuristic_oil_spill_counterexample :
    pyInStr "oil spill"
      (asciiLowerStr (heuristicText { title := some "oil spill strike" })) = true ∧
    (heuristic_item { title := some "oil spill strike" }).scores =
      ⟨70, 70, 0, 49⟩ := by
  constructor
  · decide
  · decide

/-- C8 (amended).  Under the heuristic path, an article whose lower-cased
title+description text contains "oil spill" and hits no social and no
governance keyword scores environment 70, social 0, governance 0 and overall
`round(4*70/10, 2) = 28.0`. -/
theorem heuristic_oil_spill_amended (article : PyArticleDict)
    (h1 : pyInStr "oil spill" (asciiLowerStr (heuristicText article)) = true)
    (h2 : ∀ kw ∈ SOCIAL_KEYWORDS,
      pyInStr kw (asciiLowerStr (heuristicText article)) = false)
    (h3 : ∀ kw ∈ GOVERNANCE_KEYWORDS,
      pyInStr kw (asciiLowerStr (heuristicText article)) = false) :
    (heuristic_item article).scores = ⟨70, 0, 0, 28⟩ := by
  have he : ENVIRONMENTAL_KEYWORDS.any
      (fun kw => pyInStr kw (asciiLowerStr (heuristicText article))) = true :=
    List.any_eq_true.mpr ⟨"oil spill", by decide, h1⟩
  have hs : SOCIAL_KEYWORDS.any
      (fun kw => pyInStr kw (asciiLowerStr (heuristicText article))) = false :=
    List.any_eq_false.mpr (fun kw hkw => by simp [h2 kw hkw])
  have hg : GOVERNANCE_KEYWORDS.any
      (fun kw => pyInStr kw (asciiLowerStr (heuristicText article))) = false :=
    List.any_eq_false.mpr (fun kw hkw => by simp [h3 kw hkw])
  have hd : detect_esg_aspects (heuristicText article) ESG_KEYWORDS = ["environment"] := by
    simp [detect_esg_aspects, ESG_KEYWORDS, List.filter_cons, he, hs, hg]
  simp only [heuristic_item, hd, List.foldl_cons, List.foldl_nil]
  norm_num [setAspect]
  decide

/-- Witness for C8 (amended): a pure environmental headline. -/
theorem heuristic_oil_spill_amended_witness :
    pyInStr "oil spill"
      (asciiLowerStr (heuristicText { title := some "Major oil spill" })) = true ∧
    (heuristic_item { title := some "Major oil spill" }).scores = ⟨70, 0, 0, 28⟩ :=
  ⟨by decide, heuristic_oil_spill_amended { title := some "Major oil spill" }
    (by decide) (by decide) (by decide)⟩
